import Mathlib

/-!
Verification of the `spectrum` terminal audio visualizer (Go) against its
natural-language specification.

Shallow embedding conventions:
* Go `int` is modelled as `ℤ`; Go `float64` is modelled exactly:
  by `ℚ` in the frame renderer (all its arithmetic is rational) and by `ℝ`
  in the sample pipeline, where `math.Sqrt` appears.
* Go slices are Lean lists; in-place mutation becomes functional update.
* The stream loop (`processStream`) is modelled as a step function driven by
  a list of per-iteration inputs (cancellation flag plus read outcome);
  the terminal-printing side effect does not change modelled state and is
  omitted.
-/

namespace Spectrum

/-- Configuration struct, field for field as in the Go `Config`. -/
structure Config where
  Width : ℤ
  Height : ℤ
  SampleRate : ℤ
  ChunkSize : ℤ
  FPS : ℤ
  SmoothFactor : ℚ
  Char : String
  BarSpacing : ℤ
  Amplify : ℚ
  ShowStatus : Bool
deriving DecidableEq

/-- `DefaultConfig` from the source (0.9 and 2.5 as exact rationals). -/
def DefaultConfig : Config :=
  { Width := 60
    Height := 12
    SampleRate := 44100
    ChunkSize := 1024
    FPS := 30
    SmoothFactor := 9/10
    Char := "|"
    BarSpacing := 1
    Amplify := 5/2
    ShowStatus := true }

/-- Track metadata, as in the Go `TrackInfo`. -/
structure TrackInfo where
  Title : String
  Artist : String
  Raw : String
deriving DecidableEq

/-- Visualizer state.  The Go `context.CancelFunc` field is modelled by an
`Option Unit` recording whether a cancellation handle exists (`nil` ↦ `none`);
the mutex guards no modelled state transition and is omitted. -/
structure Visualizer where
  config : Config
  waveform : List ℝ
  smoothed : List ℝ
  track : TrackInfo
  streamURL : String
  cancel : Option Unit
  running : Bool

/-- The constructor `New`: zero-valued numeric fields (and an empty `Char`)
are replaced by baseline defaults.  The Go code backfills `Width`, `Height`,
`SampleRate`, `ChunkSize`, `FPS`, `Char`, `BarSpacing` and `Amplify` and
leaves `SmoothFactor` (and `ShowStatus`) untouched. -/
def New (cfg : Config) : Visualizer :=
  let cfg : Config :=
    { cfg with
      Width := if cfg.Width = 0 then 60 else cfg.Width
      Height := if cfg.Height = 0 then 12 else cfg.Height
      SampleRate := if cfg.SampleRate = 0 then 44100 else cfg.SampleRate
      ChunkSize := if cfg.ChunkSize = 0 then 1024 else cfg.ChunkSize
      FPS := if cfg.FPS = 0 then 30 else cfg.FPS
      Char := if cfg.Char = "" then ("|") else cfg.Char
      BarSpacing := if cfg.BarSpacing = 0 then 1 else cfg.BarSpacing
      Amplify := if cfg.Amplify = 0 then 5/2 else cfg.Amplify }
  { config := cfg
    waveform := List.replicate cfg.Width.toNat 0
    smoothed := List.replicate cfg.Width.toNat 0
    track := ⟨"", "", ""⟩
    streamURL := ""
    cancel := none
    running := false }

/-- `Stop`: clears the running flag.  (The cancel handle, when present, is
invoked but not removed; see `stopInvokesCancel` for the nil guard.) -/
def Stop (v : Visualizer) : Visualizer :=
  { v with running := false }

/-- The guard `if v.cancel != nil` in `Stop`: the handle is invoked exactly
when one exists, so a missing handle is never dereferenced. -/
def stopInvokesCancel (v : Visualizer) : Bool :=
  v.cancel.isSome

/-- `IsRunning` accessor. -/
def IsRunning (v : Visualizer) : Bool :=
  v.running

/-- C3 counterexample: a config whose `SmoothFactor` is zero is NOT backfilled
to the baseline default 0.9 by `New`; the constructed visualizer keeps
smoothing factor 0. -/
theorem C3_counterexample :
    (New { DefaultConfig with SmoothFactor := 0 }).config.SmoothFactor ≠
      DefaultConfig.SmoothFactor ∧
    (New { DefaultConfig with SmoothFactor := 0 }).config.SmoothFactor = 0 := by
  constructor <;> norm_num [New, DefaultConfig]

/-- C3 amended: `New` backfills every zero numeric field EXCEPT the smoothing
factor (and backfills an empty glyph string); `SmoothFactor` passes through
unchanged, so after construction every backfilled numeric field is nonzero
while the smoothing factor may still be zero. -/
theorem C3_amended (cfg : Config) :
    (New cfg).config.Width ≠ 0 ∧
    (New cfg).config.Height ≠ 0 ∧
    (New cfg).config.SampleRate ≠ 0 ∧
    (New cfg).config.ChunkSize ≠ 0 ∧
    (New cfg).config.FPS ≠ 0 ∧
    (New cfg).config.BarSpacing ≠ 0 ∧
    (New cfg).config.Amplify ≠ 0 ∧
    (New cfg).config.Char ≠ "" ∧
    (New cfg).config.SmoothFactor = cfg.SmoothFactor := by
  refine ⟨?_, ?_, ?_, ?_, ?_, ?_, ?_, ?_, rfl⟩ <;>
    simp only [New] <;> split <;> simp_all

/-- C10: calling `Stop` on a freshly constructed (never started) visualizer is
safe: no cancellation handle exists, the nil guard keeps it from being
invoked, and `IsRunning` reports not-running afterwards. -/
theorem C10_stop_before_start (cfg : Config) :
    (New cfg).cancel = none ∧
    stopInvokesCancel (New cfg) = false ∧
    IsRunning (Stop (New cfg)) = false := by
  exact ⟨rfl, rfl, rfl⟩

/-- Sign-extension of a 16-bit pattern: the value of
`int16(lo) | int16(hi)<<8` in the Go demux loop is the two's-complement
reading of `lo + 256*hi`. -/
def toInt16 (n : ℤ) : ℤ :=
  if n % 65536 < 32768 then n % 65536 else n % 65536 - 65536

/-- The demux loop of `processStream`:
`buffer[i] = int16(rawBuffer[i*2]) | int16(rawBuffer[i*2+1])<<8`. -/
def demux (raw : List ℕ) (chunkSize : ℕ) : List ℤ :=
  (List.range chunkSize).map fun i =>
    toInt16 ((raw.getD (2 * i) 0 : ℤ) + 256 * (raw.getD (2 * i + 1) 0 : ℤ))

/-- The inner sum of `convertToWaveform`: sum over `i ∈ [start, stop)` of
`(float64(buffer[i])/32768.0)^2`, as an exact rational. -/
def columnSumSq (buffer : List ℤ) (start stop : ℕ) : ℚ :=
  ((List.range (stop - start)).map fun i =>
    ((buffer.getD (start + i) 0 : ℚ) / 32768)^2).sum

/-- `convertToWaveform`: column-wise RMS reduction.  The Go function mutates
`waveform` in place, writing column `col` only when `samplesPerColumn > 0`
(otherwise the old entry survives); here the updated list is returned.
`start = col*spc`, `end = min(start+spc, len(buffer))`. -/
noncomputable def convertToWaveform (buffer : List ℤ) (waveform : List ℝ) : List ℝ :=
  let spc := buffer.length / waveform.length
  (List.range waveform.length).map fun col =>
    if 0 < spc then
      Real.sqrt ((columnSumSq buffer (col * spc)
        (min (col * spc + spc) buffer.length) : ℝ) / (spc : ℝ))
    else waveform.getD col 0

/-- One frame of the smoothing recurrence in `processStream`:
`smoothed[i] = smoothed[i]*(1-α) + waveform[i]*α` for every index. -/
noncomputable def smoothStep (α : ℝ) (smoothed raw : List ℝ) : List ℝ :=
  List.zipWith (fun s r => s * (1 - α) + r * α) smoothed raw

/-- Iterated smoothing across a sequence of raw profile vectors. -/
noncomputable def smoothIter (α : ℝ) (smoothed : List ℝ) (raws : List (List ℝ)) : List ℝ :=
  raws.foldl (smoothStep α) smoothed

/-- Outcome of one `io.ReadFull` call. -/
inductive ReadErr
  | eof
  | unexpectedEof
  | hard (msg : String)
deriving DecidableEq

/-- The `(n, err)` pair returned by `io.ReadFull`, plus the bytes read. -/
structure ReadResult where
  n : ℕ
  bytes : List ℕ
  err : Option ReadErr
deriving DecidableEq

/-- Environment input consumed by one iteration of the stream loop: the
`ctx.Done()` poll at the top, then the read outcome. -/
structure IterInput where
  cancelled : Bool
  read : ReadResult
deriving DecidableEq

/-- The mutable state the loop owns: `waveform`, `v.smoothed`, `v.running`. -/
structure LoopState where
  waveform : List ℝ
  smoothed : List ℝ
  running : Bool

/-- The loop's terminal result: `ctx.Err()` on cancellation, or the hard
read error. -/
inductive LoopExit
  | cancelled
  | readError (msg : String)
deriving DecidableEq

/-- One iteration of `processStream`, following the Go control flow:
cancellation check (clears `running`), then the read — `io.EOF` and
`io.ErrUnexpectedEOF` (and a short `n`) mean `continue`; any other error is
returned (note: WITHOUT clearing `running`); a full chunk is demuxed,
reduced and smoothed.  Rendering/pacing have no modelled state effect. -/
noncomputable def loopStep (cfg : Config) (st : LoopState) (inp : IterInput) :
    LoopState ⊕ (LoopExit × LoopState) :=
  if inp.cancelled then Sum.inr (LoopExit.cancelled, { st with running := false })
  else
    match inp.read.err with
    | some ReadErr.eof => Sum.inl st
    | some ReadErr.unexpectedEof => Sum.inl st
    | some (ReadErr.hard m) => Sum.inr (LoopExit.readError m, st)
    | none =>
      if inp.read.n < 2 * cfg.ChunkSize.toNat then Sum.inl st
      else
        let buffer := demux inp.read.bytes cfg.ChunkSize.toNat
        let wf := convertToWaveform buffer st.waveform
        let sm := smoothStep (cfg.SmoothFactor : ℝ) st.smoothed wf
        Sum.inl { st with waveform := wf, smoothed := sm }

/-- The stream loop run on a finite trace of iteration inputs; `none` means
the trace was exhausted with the loop still live. -/
noncomputable def processStream (cfg : Config) :
    LoopState → List IterInput → Option LoopExit × LoopState
  | st, [] => (none, st)
  | st, inp :: rest =>
    match loopStep cfg st inp with
    | Sum.inl st2 => processStream cfg st2 rest
    | Sum.inr (ex, st2) => (some ex, st2)

/-- C2: cancellation returns the cancellation outcome with the running flag
cleared, but a hard read error returns the error while LEAVING
`running = true` — the code omits the `v.running = false` write on the
error path, contradicting the claim that both terminal outcomes clear the
Run State flag. -/
theorem C2_hard_error_keeps_running_flag :
    (processStream DefaultConfig
        ⟨List.replicate 60 0, List.replicate 60 0, true⟩
        [⟨true, ⟨0, [], none⟩⟩] =
      (some LoopExit.cancelled,
        ⟨List.replicate 60 0, List.replicate 60 0, false⟩)) ∧
    (processStream DefaultConfig
        ⟨List.replicate 60 0, List.replicate 60 0, true⟩
        [⟨false, ⟨0, [], some (ReadErr.hard ("boom"))⟩⟩] =
      (some (LoopExit.readError ("boom")),
        ⟨List.replicate 60 0, List.replicate 60 0, true⟩)) := by
  constructor <;> rfl

/-- C8: with no cancellation pending, the read outcomes are classified
exactly as the claim says: end-of-stream (`io.EOF`/`io.ErrUnexpectedEOF`)
and a partial chunk (`n < 2*chunkSize` with nil error) make the loop retry
with unchanged state; any other read error terminates the loop with that
error; a full successful chunk continues into processing.  These cases are
exhaustive over the read outcome. -/
theorem C8_read_classification (cfg : Config) (st : LoopState) (inp : IterInput)
    (hnc : inp.cancelled = false) :
    ((inp.read.err = some ReadErr.eof ∨ inp.read.err = some ReadErr.unexpectedEof) →
      loopStep cfg st inp = Sum.inl st) ∧
    (∀ m, inp.read.err = some (ReadErr.hard m) →
      loopStep cfg st inp = Sum.inr (LoopExit.readError m, st)) ∧
    (inp.read.err = none → inp.read.n < 2 * cfg.ChunkSize.toNat →
      loopStep cfg st inp = Sum.inl st) ∧
    (inp.read.err = none → ¬ inp.read.n < 2 * cfg.ChunkSize.toNat →
      (∃ st2 : LoopState, loopStep cfg st inp = Sum.inl st2 ∧
        st2.running = st.running)) := by
  refine ⟨?_, ?_, ?_, ?_⟩
  · rintro (h | h) <;> simp [loopStep, hnc, h]
  · intro m h; simp [loopStep, hnc, h]
  · intro h hn; simp [loopStep, hnc, h, hn]
  · intro h hn
    refine ⟨{ st with
        waveform := convertToWaveform (demux inp.read.bytes cfg.ChunkSize.toNat) st.waveform
        smoothed := smoothStep (cfg.SmoothFactor : ℝ) st.smoothed
          (convertToWaveform (demux inp.read.bytes cfg.ChunkSize.toNat) st.waveform) },
      ?_, rfl⟩
    simp [loopStep, hnc, h, hn]

/-- C8 witness: an end-of-stream read on a concrete state makes the loop
retry with state unchanged. -/
theorem C8_witness :
    loopStep DefaultConfig ⟨[], [], true⟩ ⟨false, ⟨0, [], some ReadErr.eof⟩⟩ =
      Sum.inl ⟨[], [], true⟩ :=
  (C8_read_classification DefaultConfig ⟨[], [], true⟩
    ⟨false, ⟨0, [], some ReadErr.eof⟩⟩ rfl).1 (Or.inl rfl)

/-- `midline := v.config.Height / 2` (Go integer division; heights of
interest are positive, where Go and `ℤ` division agree). -/
def midline (cfg : Config) : ℤ :=
  cfg.Height / 2

/-- Go's `int(f)` float-to-int conversion: truncation toward zero, modelled
on exact rationals. -/
def goTrunc (q : ℚ) : ℤ :=
  if q < 0 then -⌊-q⌋ else ⌊q⌋

/-- The bar height of `renderFrame`:
`height := int(waveform[idx] * Amplify * float64(midline-1))` followed by
`height = min(height, midline-1)`. -/
def barHeight (cfg : Config) (x : ℚ) : ℤ :=
  min (goTrunc (x * cfg.Amplify * ((midline cfg - 1 : ℤ) : ℚ))) (midline cfg - 1)

/-- The wave index for a column: `col / BarSpacing` when spacing > 1,
else `col` itself. -/
def waveIdxOf (cfg : Config) (col : ℕ) : ℤ :=
  if cfg.BarSpacing > 1 then (col : ℤ) / cfg.BarSpacing else (col : ℤ)

/-- Whether `renderFrame` draws the glyph at `(row, col)`: gap columns and
out-of-range wave indices are blank; otherwise the glyph is drawn iff
`midline-height ≤ row ≤ midline+height` and `height > 0`. -/
def barAt (cfg : Config) (wf : List ℚ) (row col : ℕ) : Bool :=
  if cfg.BarSpacing > 1 ∧ (col : ℤ) % cfg.BarSpacing ≠ 0 then false
  else if (wf.length : ℤ) ≤ waveIdxOf cfg col then false
  else
    decide (midline cfg - barHeight cfg (wf.getD (waveIdxOf cfg col).toNat 0) ≤ (row : ℤ) ∧
      (row : ℤ) ≤ midline cfg + barHeight cfg (wf.getD (waveIdxOf cfg col).toNat 0) ∧
      0 < barHeight cfg (wf.getD (waveIdxOf cfg col).toNat 0))

/-- One cell of the frame: the configured glyph string or a space. -/
def cellString (cfg : Config) (wf : List ℚ) (row col : ℕ) : String :=
  if barAt cfg wf row col then cfg.Char else (" ")

/-- Sequential concatenation, mirroring the `strings.Builder` appends. -/
def strConcat : List String → String
  | [] => ""
  | s :: rest => s ++ strConcat rest

/-- One row of the frame: `Width` cells in column order. -/
def rowString (cfg : Config) (wf : List ℚ) (row : ℕ) : String :=
  strConcat ((List.range cfg.Width.toNat).map fun col => cellString cfg wf row col)

/-- The status line `"Audio Visualizer | %dHz | %d samples | %d FPS\n"`. -/
def statusLine (cfg : Config) : String :=
  "Audio Visualizer | " ++ toString cfg.SampleRate ++ "Hz | " ++
    toString cfg.ChunkSize ++ " samples | " ++ toString cfg.FPS ++ " FPS\n"

/-- The terminal-control prefix written before the rows:
cursor to row 2 (`ESC[2;0H`) and hide cursor (`ESC[?25l`). -/
def ctrlSeq : String :=
  "\x1b[2;0H\x1b[?25l"

/-- The optional trailing status line. -/
def statusSuffix (cfg : Config) : String :=
  if cfg.ShowStatus then statusLine cfg else ("")

/-- `renderFrame`: control prefix, then `Height` rows each followed by a
newline, then the optional status line. -/
def renderFrame (cfg : Config) (wf : List ℚ) : String :=
  ctrlSeq ++
    strConcat ((List.range cfg.Height.toNat).map fun row =>
      rowString cfg wf row ++ "\n") ++
    statusSuffix cfg

/-- The shape the spec ascribes to a frame, relative to a fixed leading
string `pre`: `pre`, then exactly `Height` newline-terminated rows of
exactly `Width` characters (none of them a newline), then the optional
status line and nothing else.  The claim as stated is `framedRows ""`;
the code produces `framedRows ctrlSeq`. -/
def framedRows (pre : String) (cfg : Config) (wf : List ℚ) : Prop :=
  ∃ rows : List String,
    rows.length = cfg.Height.toNat ∧
    (∀ r ∈ rows, r.length = cfg.Width.toNat ∧ ∀ ch ∈ r.data, ch ≠ '\n') ∧
    renderFrame cfg wf = pre ++ strConcat (rows.map fun r => r ++ "\n") ++ statusSuffix cfg

theorem strConcat_length (l : List String) :
    (strConcat l).length = (l.map String.length).sum := by
  induction l with
  | nil => rfl
  | cons a t ih => simp [strConcat, ih]

theorem strConcat_data (l : List String) :
    (strConcat l).data = (l.map String.data).flatten := by
  induction l with
  | nil => rfl
  | cons a t ih => simp [strConcat, ih]

theorem sum_map_ones {α : Type} (l : List α) (g : α → ℕ)
    (h : ∀ x ∈ l, g x = 1) : (l.map g).sum = l.length := by
  induction l with
  | nil => rfl
  | cons a t ih =>
    simp only [List.map_cons, List.sum_cons, List.length_cons,
      h a (List.mem_cons_self a t), ih fun x hx => h x (List.mem_cons_of_mem a hx)]
    omega

/-- C7: for a configuration with nonnegative amplitude multiplier and
midline at least 1, the bar height computed by the renderer is monotone
non-decreasing in the (non-negative) smoothed value, and a drawn glyph cell
never lies more than `midline - 1` rows from the midline in either
direction. -/
theorem C7_bar_monotone_and_bounded (cfg : Config) (wf : List ℚ) (x y : ℚ)
    (hA : 0 ≤ cfg.Amplify) (hm : 1 ≤ midline cfg)
    (hx : 0 ≤ x) (hxy : x ≤ y) :
    barHeight cfg x ≤ barHeight cfg y ∧
    ∀ row col : ℕ, barAt cfg wf row col = true →
      midline cfg - (midline cfg - 1) ≤ (row : ℤ) ∧
      (row : ℤ) ≤ midline cfg + (midline cfg - 1) := by
  have hm1 : (0 : ℚ) ≤ ((midline cfg - 1 : ℤ) : ℚ) := by
    have : (0 : ℤ) ≤ midline cfg - 1 := by omega
    exact_mod_cast this
  constructor
  · have ha : (0 : ℚ) ≤ x * cfg.Amplify * ((midline cfg - 1 : ℤ) : ℚ) :=
      mul_nonneg (mul_nonneg hx hA) hm1
    have hab : x * cfg.Amplify * ((midline cfg - 1 : ℤ) : ℚ) ≤
        y * cfg.Amplify * ((midline cfg - 1 : ℤ) : ℚ) :=
      mul_le_mul_of_nonneg_right (mul_le_mul_of_nonneg_right hxy hA) hm1
    have hb : (0 : ℚ) ≤ y * cfg.Amplify * ((midline cfg - 1 : ℤ) : ℚ) :=
      le_trans ha hab
    unfold barHeight goTrunc
    rw [if_neg (not_lt.mpr ha), if_neg (not_lt.mpr hb)]
    exact min_le_min (Int.floor_le_floor hab) le_rfl
  · intro row col h
    unfold barAt at h
    split_ifs at h
    have h3 := of_decide_eq_true h
    have hle : barHeight cfg (wf.getD (waveIdxOf cfg col).toNat 0) ≤ midline cfg - 1 :=
      min_le_right _ _
    obtain ⟨h1, h2, hpos⟩ := h3
    omega

/-- C7 witness: the default configuration at smoothed values 0 ≤ 1. -/
theorem C7_witness :
    barHeight DefaultConfig 0 ≤ barHeight DefaultConfig 1 ∧
    ∀ row col : ℕ, barAt DefaultConfig [] row col = true →
      midline DefaultConfig - (midline DefaultConfig - 1) ≤ (row : ℤ) ∧
      (row : ℤ) ≤ midline DefaultConfig + (midline DefaultConfig - 1) :=
  C7_bar_monotone_and_bounded DefaultConfig [] 0 1
    (by norm_num [DefaultConfig]) (by norm_num [midline, DefaultConfig])
    (by norm_num) (by norm_num)

/-- A concrete 1×1 configuration with the status line off, for the C4
counterexample. -/
def cfgC4 : Config :=
  { Width := 1, Height := 1, SampleRate := 44100, ChunkSize := 1024, FPS := 30,
    SmoothFactor := 0, Char := "|", BarSpacing := 1, Amplify := 1,
    ShowStatus := false }

theorem getD_zero_singleton (i : ℕ) : List.getD [(0 : ℚ)] i 0 = 0 := by
  cases i <;> simp [List.getD]

theorem barAt_cfgC4 (row : ℕ) : barAt cfgC4 [(0 : ℚ)] row 0 = false := by
  have h2 : barHeight cfgC4 0 = -1 := by
    norm_num [barHeight, goTrunc, midline, cfgC4]
  rw [barAt, if_neg (by norm_num [cfgC4]), if_neg (by norm_num [waveIdxOf, cfgC4])]
  rw [getD_zero_singleton, h2]
  simp only [decide_eq_false_iff_not]
  intro h
  exact absurd h.2.2 (by norm_num)

theorem renderFrame_cfgC4 : renderFrame cfgC4 [(0 : ℚ)] = ctrlSeq ++ " \n" := by
  have hcell : cellString cfgC4 [(0 : ℚ)] 0 0 = " " := by
    rw [cellString, barAt_cfgC4]
    simp
  have hrow : rowString cfgC4 [(0 : ℚ)] 0 = " " := by
    simp only [rowString, show cfgC4.Width.toNat = 1 from rfl, show List.range 1 = [0] from rfl,
      List.map_cons, List.map_nil, hcell, strConcat]
    rfl
  simp only [renderFrame, show cfgC4.Height.toNat = 1 from rfl, show List.range 1 = [0] from rfl,
    List.map_cons, List.map_nil, hrow, strConcat,
    show statusSuffix cfgC4 = ("" : String) from rfl]
  rfl

/-- C4 counterexample: the claim as stated — the output is NOTHING but the
`height` rows (plus optional status line) — fails, because `renderFrame`
writes the terminal-control prefix before the first row. -/
theorem C4_counterexample : ¬ framedRows ("") cfgC4 [(0 : ℚ)] := by
  rintro ⟨rows, hlen, hrow, heq⟩
  have h1 : rows.length = 1 := by simpa [cfgC4] using hlen
  obtain ⟨r, hr⟩ := List.length_eq_one.mp h1
  subst hr
  rw [renderFrame_cfgC4,
    show statusSuffix cfgC4 = ("" : String) from rfl] at heq
  have hlenr : r.length = 1 := by
    have := (hrow r (by simp)).1
    simpa [cfgC4] using this
  have hL := congrArg String.length heq
  simp only [List.map_cons, List.map_nil, strConcat, String.length_append] at hL
  have e1 : ctrlSeq.length = 12 := by decide
  have e2 : (" \n" : String).length = 2 := by decide
  have e3 : ("\n" : String).length = 1 := by decide
  have e5 : ("" : String).length = 0 := by decide
  rw [e1, e2, e3, e5, hlenr] at hL
  omega

/-- C4 amended: for a single-character (non-newline) glyph, the renderer
output is the fixed terminal-control prefix, then exactly `height`
newline-terminated rows each exactly `width` characters wide and free of
newlines, then the optional status line and nothing else. -/
theorem C4_amended (cfg : Config) (wf : List ℚ)
    (hW : 0 < cfg.Width) (hH : 0 < cfg.Height)
    (hlen : wf.length = cfg.Width.toNat)
    (hc : cfg.Char.length = 1) (hcn : cfg.Char ≠ "\n") :
    framedRows ctrlSeq cfg wf := by
  have hchar : ∀ ch ∈ cfg.Char.data, ch ≠ '\n' := by
    intro ch hch hne
    subst hne
    apply hcn
    have hl : cfg.Char.data.length = 1 := hc
    obtain ⟨c, hcd⟩ := List.length_eq_one.mp hl
    rw [hcd] at hch
    simp only [List.mem_singleton] at hch
    subst hch
    exact String.ext (by simpa using hcd)
  refine ⟨(List.range cfg.Height.toNat).map (rowString cfg wf), by simp, ?_, ?_⟩
  · intro r hr
    simp only [List.mem_map, List.mem_range] at hr
    obtain ⟨row, _, rfl⟩ := hr
    constructor
    · rw [rowString, strConcat_length, List.map_map]
      rw [sum_map_ones]
      · exact List.length_range cfg.Width.toNat
      · intro c _
        simp only [Function.comp_apply, cellString]
        split
        · exact hc
        · rfl
    · intro ch hch
      rw [rowString, strConcat_data, List.map_map] at hch
      rw [List.mem_flatten] at hch
      obtain ⟨l, hl, hchl⟩ := hch
      simp only [List.mem_map, Function.comp_apply] at hl
      obtain ⟨c, _, rfl⟩ := hl
      rw [cellString] at hchl
      split at hchl
      · exact hchar ch hchl
      · simp only [show (" " : String).data = [' '] from rfl,
          List.mem_singleton] at hchl
        subst hchl
        decide
  · simp only [renderFrame, List.map_map, Function.comp_def]

/-- A well-behaved small configuration used as the C4 witness input. -/
def cfgC4w : Config :=
  { cfgC4 with Width := 2, Height := 2, ShowStatus := true }

/-- C4 witness: concrete 2×2 configuration with a single-character glyph. -/
theorem C4_witness : framedRows ctrlSeq cfgC4w [0, 0] :=
  C4_amended cfgC4w [0, 0] (by decide) (by decide) (by decide) (by decide)
    (by decide)

theorem smoothStep_zero (sm : List ℝ) :
    ∀ raw : List ℝ, sm.length = raw.length → smoothStep 0 sm raw = sm := by
  induction sm with
  | nil => intro raw _; simp [smoothStep]
  | cons s t ih =>
    intro raw h
    cases raw with
    | nil => simp at h
    | cons r rt =>
      simp only [smoothStep, List.zipWith_cons_cons, List.cons.injEq]
      refine ⟨by ring, ?_⟩
      have := ih rt (by simpa using h)
      simpa [smoothStep] using this

theorem smoothStep_one (sm : List ℝ) :
    ∀ raw : List ℝ, sm.length = raw.length → smoothStep 1 sm raw = raw := by
  induction sm with
  | nil =>
    intro raw h
    cases raw with
    | nil => rfl
    | cons r rt => simp at h
  | cons s t ih =>
    intro raw h
    cases raw with
    | nil => simp at h
    | cons r rt =>
      simp only [smoothStep, List.zipWith_cons_cons, List.cons.injEq]
      refine ⟨by ring, ?_⟩
      have := ih rt (by simpa using h)
      simpa [smoothStep] using this

theorem smoothIter_zero (n : ℕ) :
    ∀ raws : List (List ℝ), (∀ r ∈ raws, r.length = n) →
      smoothIter 0 (List.replicate n 0) raws = List.replicate n 0 := by
  intro raws
  induction raws with
  | nil => intro _; rfl
  | cons a t ih =>
    intro hr
    have h1 : smoothStep 0 (List.replicate n 0) a = List.replicate n 0 :=
      smoothStep_zero _ a (by simp [hr a (List.mem_cons_self a t)])
    simp only [smoothIter, List.foldl_cons, h1]
    exact ih fun r hrr => hr r (List.mem_cons_of_mem a hrr)

/-- C6: smoothing factor 0 leaves the smoothed vector at its all-zero
initial state across any number of frames of matching width, and factor 1
makes one application of the recurrence return the raw profile, whatever
the previous smoothed state was. -/
theorem C6_smoothing_extremes (n : ℕ) (raws : List (List ℝ))
    (hr : ∀ r ∈ raws, r.length = n) (sm raw : List ℝ)
    (h : sm.length = raw.length) :
    smoothIter 0 (List.replicate n 0) raws = List.replicate n 0 ∧
    smoothStep 1 sm raw = raw :=
  ⟨smoothIter_zero n raws hr, smoothStep_one sm raw h⟩

/-- C6 witness: two concrete frames at factor 0, one concrete step at
factor 1. -/
theorem C6_witness :
    smoothIter 0 (List.replicate 2 0) [[(1 : ℝ), 2], [(3 : ℝ), 4]] =
      List.replicate 2 0 ∧
    smoothStep 1 [(5 : ℝ)] [(7 : ℝ)] = [(7 : ℝ)] :=
  C6_smoothing_extremes 2 [[(1 : ℝ), 2], [(3 : ℝ), 4]]
    (by simp) [(5 : ℝ)] [(7 : ℝ)] (by simp)

/-- C5: the end-to-end scenario of the spec: chunk
`[0,0,0,0,32767,32767,32767,32767]` with width 4 reduces to the profile
`[0, 0, 32767/32768, 32767/32768]` (within 1/32768 of `[0,0,1,1]`), and one
smoothing step at factor 1 from the all-zero state returns exactly that
profile. -/
theorem C5_end_to_end :
    convertToWaveform [0, 0, 0, 0, 32767, 32767, 32767, 32767]
        (List.replicate 4 (0 : ℝ)) =
      [0, 0, (32767 : ℝ)/32768, (32767 : ℝ)/32768] ∧
    |(32767 : ℝ)/32768 - 1| ≤ 1/32768 ∧
    smoothStep 1 (List.replicate 4 (0 : ℝ))
        [0, 0, (32767 : ℝ)/32768, (32767 : ℝ)/32768] =
      [0, 0, (32767 : ℝ)/32768, (32767 : ℝ)/32768] := by
  refine ⟨?_, by rw [abs_le]; constructor <;> norm_num, ?_⟩
  · have c0 : columnSumSq [0, 0, 0, 0, 32767, 32767, 32767, 32767] 0 2 = 0 := by
      norm_num [columnSumSq, show List.range 2 = [0, 1] from rfl]
    have c1 : columnSumSq [0, 0, 0, 0, 32767, 32767, 32767, 32767] 2 4 = 0 := by
      norm_num [columnSumSq, show List.range 2 = [0, 1] from rfl]
    have c2 : columnSumSq [0, 0, 0, 0, 32767, 32767, 32767, 32767] 4 6 =
        2 * ((32767 : ℚ)/32768)^2 := by
      norm_num [columnSumSq, show List.range 2 = [0, 1] from rfl]
    have c3 : columnSumSq [0, 0, 0, 0, 32767, 32767, 32767, 32767] 6 8 =
        2 * ((32767 : ℚ)/32768)^2 := by
      norm_num [columnSumSq, show List.range 2 = [0, 1] from rfl]
    simp only [convertToWaveform, show List.range 4 = [0, 1, 2, 3] from rfl,
      List.length_replicate, List.map_cons, List.map_nil]
    norm_num [c0, c1, c2, c3]
    rw [show (1073676289 : ℝ) = 32767^2 by norm_num,
      show (1073741824 : ℝ) = 32768^2 by norm_num,
      Real.sqrt_sq (by norm_num : (0 : ℝ) ≤ 32767),
      Real.sqrt_sq (by norm_num : (0 : ℝ) ≤ 32768)]
  · simp only [show List.replicate 4 (0 : ℝ) = [0, 0, 0, 0] from rfl,
      smoothStep, List.zipWith_cons_cons, List.zipWith_nil_right]
    norm_num

theorem getD_map_range {α : Type} (n i : ℕ) (f : ℕ → α) (d : α) (h : i < n) :
    ((List.range n).map f).getD i d = f i := by
  rw [List.getD_eq_getElem?_getD, List.getElem?_map, List.getElem?_range h]
  rfl

/-- The C1 counterexample buffer: chunkSize 10, loud remainder samples. -/
def bufC1 : List ℤ := [0, 0, 0, 0, 0, 0, 0, 0, 32767, 32767]

/-- C1 counterexample: width 4, chunkSize 10, samplesPerColumn 2, and 4 does
not divide 10.  The last column's value is 0 — the RMS of samples [6, 8) —
and NOT the RMS over the claimed span [6, 10) containing the two loud
remainder samples, which are silently dropped. -/
theorem C1_counterexample :
    (convertToWaveform bufC1 (List.replicate 4 (0 : ℝ))).getD 3 0 = 0 ∧
    (convertToWaveform bufC1 (List.replicate 4 (0 : ℝ))).getD 3 0 ≠
      Real.sqrt ((columnSumSq bufC1 6 10 : ℝ) / 2) := by
  have hval : (convertToWaveform bufC1 (List.replicate 4 (0 : ℝ))).getD 3 0 = 0 := by
    simp only [convertToWaveform, List.length_replicate]
    rw [getD_map_range 4 3 _ _ (by norm_num)]
    have c3 : columnSumSq [0, 0, 0, 0, 0, 0, 0, 0, 32767, 32767] 6 8 = 0 := by
      norm_num [columnSumSq, show List.range 2 = [0, 1] from rfl]
    norm_num [bufC1, c3]
  refine ⟨hval, ?_⟩
  rw [hval]
  have c4 : columnSumSq bufC1 6 10 = 2 * ((32767 : ℚ)/32768)^2 := by
    norm_num [columnSumSq, bufC1,
      show List.range 4 = [0, 1, 2, 3] from rfl]
  symm
  rw [Real.sqrt_ne_zero']
  rw [c4]
  push_cast
  norm_num

/-- C1 amended: when `samplesPerColumn = chunkSize / W > 0` and `W` does not
divide `chunkSize`, the final column spans `[(W-1)*spc, W*spc)` — the same
width as every other column — and the `W*spc ≤ chunkSize` remainder samples
beyond `W*spc` are dropped (the `min` clamp never reaches `chunkSize`). -/
theorem C1_amended (buffer : List ℤ) (wf : List ℝ)
    (hW : 0 < wf.length)
    (hspc : 0 < buffer.length / wf.length)
    (hndvd : ¬ wf.length ∣ buffer.length) :
    wf.length * (buffer.length / wf.length) ≤ buffer.length ∧
    (convertToWaveform buffer wf).getD (wf.length - 1) 0 =
      Real.sqrt ((columnSumSq buffer
          ((wf.length - 1) * (buffer.length / wf.length))
          (wf.length * (buffer.length / wf.length)) : ℝ) /
        ((buffer.length / wf.length : ℕ) : ℝ)) := by
  have hle : wf.length * (buffer.length / wf.length) ≤ buffer.length := by
    rw [Nat.mul_comm]
    exact Nat.div_mul_le_self buffer.length wf.length
  refine ⟨hle, ?_⟩
  simp only [convertToWaveform]
  rw [getD_map_range wf.length (wf.length - 1) _ _ (by omega)]
  rw [if_pos hspc]
  have hsum : (wf.length - 1) * (buffer.length / wf.length) +
      buffer.length / wf.length = wf.length * (buffer.length / wf.length) := by
    have : wf.length - 1 + 1 = wf.length := Nat.succ_pred_eq_of_pos hW
    calc (wf.length - 1) * (buffer.length / wf.length) + buffer.length / wf.length
        = (wf.length - 1 + 1) * (buffer.length / wf.length) := by ring
      _ = wf.length * (buffer.length / wf.length) := by rw [this]
  rw [hsum, min_eq_left hle]

/-- C1 witness: the amended statement at the concrete counterexample
buffer (chunkSize 10, width 4). -/
theorem C1_witness :
    (List.replicate 4 (0 : ℝ)).length *
        (bufC1.length / (List.replicate 4 (0 : ℝ)).length) ≤ bufC1.length ∧
    (convertToWaveform bufC1 (List.replicate 4 (0 : ℝ))).getD
        ((List.replicate 4 (0 : ℝ)).length - 1) 0 =
      Real.sqrt ((columnSumSq bufC1
          (((List.replicate 4 (0 : ℝ)).length - 1) *
            (bufC1.length / (List.replicate 4 (0 : ℝ)).length))
          ((List.replicate 4 (0 : ℝ)).length *
            (bufC1.length / (List.replicate 4 (0 : ℝ)).length)) : ℝ) /
        ((bufC1.length / (List.replicate 4 (0 : ℝ)).length : ℕ) : ℝ)) :=
  C1_amended bufC1 (List.replicate 4 0) (by decide) (by decide) (by decide)

/-- Go `unicode.IsSpace` restricted to ASCII whitespace
(space, tab, newline, carriage return, vertical tab, form feed), covering
the character set relevant here. -/
def isGoSpace (c : Char) : Bool :=
  c == ' ' || c == '\t' || c == '\n' || c == '\r' ||
    c == Char.ofNat 11 || c == Char.ofNat 12

/-- `strings.TrimSpace`: drop whitespace from both ends. -/
def trimSpace (s : List Char) : List Char :=
  ((s.dropWhile isGoSpace).reverse.dropWhile isGoSpace).reverse

/-- Split at the FIRST occurrence of `sep` (the behavior of
`strings.SplitN(s, sep, 2)` when the separator occurs; `none` when it does
not, corresponding to a 1-element split). -/
def splitFirst (sep : List Char) : List Char → Option (List Char × List Char)
  | [] => none
  | c :: rest =>
    if sep.isPrefixOf (c :: rest) then some ([], (c :: rest).drop sep.length)
    else
      match splitFirst sep rest with
      | some (a, b) => some (c :: a, b)
      | none => none

/-- The separator `" - "` used by `FetchTrack`. -/
def sepList : List Char := [' ', '-', ' ']

/-- The `StreamTitle` branch of `FetchTrack`: split on the first `" - "`;
when it occurs, artist and title are the two parts with surrounding
whitespace trimmed; otherwise the whole value becomes the title and the
artist is cleared.  `Raw` always receives the tag value. -/
def parseStreamTitle (title : String) (prev : TrackInfo) : TrackInfo :=
  match splitFirst sepList title.data with
  | some (a, b) =>
    { prev with
      Raw := title
      Artist := (trimSpace a).asString
      Title := (trimSpace b).asString }
  | none =>
    { prev with
      Raw := title
      Title := title
      Artist := "" }

/-- The tag-handling tail of `FetchTrack`: prefer `StreamTitle`, else fall
back to `icy-name` (which sets only `Raw` and `Title`), else leave the
cached track unchanged. -/
def updateTrack (tags : List (String × String)) (prev : TrackInfo) : TrackInfo :=
  match tags.lookup ("StreamTitle") with
  | some t => parseStreamTitle t prev
  | none =>
    match tags.lookup ("icy-name") with
    | some t => { prev with Raw := t, Title := t }
    | none => prev

theorem splitFirst_some (sep : List Char) :
    ∀ t a b : List Char, splitFirst sep t = some (a, b) →
      t = a ++ sep ++ b ∧
        ∀ a' b' : List Char, t = a' ++ sep ++ b' → a.length ≤ a'.length := by
  intro t
  induction t with
  | nil => intro a b h; simp [splitFirst] at h
  | cons c rest ih =>
    intro a b h
    rw [splitFirst] at h
    by_cases hpre : sep.isPrefixOf (c :: rest)
    · rw [if_pos hpre] at h
      obtain ⟨suf, hsuf⟩ := List.isPrefixOf_iff_prefix.mp hpre
      obtain ⟨ha, hb⟩ := Prod.mk.injEq .. ▸ Option.some.injEq .. ▸ h
      subst ha
      constructor
      · rw [← hb, ← hsuf, List.nil_append, List.drop_left]
      · intro a' b' _
        simp
    · rw [if_neg hpre] at h
      cases hsp : splitFirst sep rest with
      | none => rw [hsp] at h; simp at h
      | some p =>
        obtain ⟨a0, b0⟩ := p
        rw [hsp] at h
        simp only [Option.some.injEq, Prod.mk.injEq] at h
        obtain ⟨ha, hb⟩ := h
        obtain ⟨heq0, hmin0⟩ := ih a0 b0 hsp
        subst ha
        subst hb
        constructor
        · simp [heq0]
        · intro a' b' heq'
          cases a' with
          | nil =>
            exfalso
            apply hpre
            rw [List.isPrefixOf_iff_prefix]
            exact ⟨b', by simpa using heq'.symm⟩
          | cons c' a'' =>
            simp only [List.cons_append, List.cons.injEq] at heq'
            have := hmin0 a'' b' heq'.2
            simp only [List.length_cons]
            omega

theorem splitFirst_none (sep : List Char) (hsep : sep ≠ []) :
    ∀ t : List Char, splitFirst sep t = none →
      ∀ a b : List Char, t ≠ a ++ sep ++ b := by
  intro t
  induction t with
  | nil =>
    intro _ a b heq
    rcases List.append_eq_nil.mp (List.append_eq_nil.mp heq.symm).1 with ⟨_, h2⟩
    exact hsep h2
  | cons c rest ih =>
    intro h a b heq
    rw [splitFirst] at h
    by_cases hpre : sep.isPrefixOf (c :: rest)
    · rw [if_pos hpre] at h
      simp at h
    · rw [if_neg hpre] at h
      cases a with
      | nil =>
        apply hpre
        rw [List.isPrefixOf_iff_prefix]
        exact ⟨b, by simpa using heq.symm⟩
      | cons c' a'' =>
        simp only [List.cons_append, List.cons.injEq] at heq
        cases hsp : splitFirst sep rest with
        | none => exact ih hsp a'' b heq.2
        | some p => rw [hsp] at h; obtain ⟨a0, b0⟩ := p; simp at h

/-- C9 counterexample: with `StreamTitle = " X - Y"` the before-part of the
first `" - "` occurrence is `" X"`, but the code stores the TRIMMED artist
`"X"`, so the artist is not the raw before-part as claimed. -/
theorem C9_counterexample :
    splitFirst sepList (" X - Y" : String).data =
      some ((" X" : String).data, ("Y" : String).data) ∧
    (updateTrack [("StreamTitle", " X - Y")] ⟨"", "", ""⟩).Artist = "X" ∧
    (" X" : String) ≠ "X" := by
  refine ⟨by decide, by decide, by decide⟩

/-- C9 amended: on a successful fetch, a `StreamTitle` value is split at the
FIRST occurrence of `" - "` (the split position is minimal); artist and
title are the before/after parts with surrounding whitespace trimmed; with
no separator the whole value becomes the title and the artist is cleared;
with no `StreamTitle` at all, an `icy-name` value becomes the title. -/
theorem C9_amended (tags : List (String × String)) (prev : TrackInfo) :
    (∀ t : String, ∀ a b : List Char,
      tags.lookup ("StreamTitle") = some t →
      splitFirst sepList t.data = some (a, b) →
      (t.data = a ++ sepList ++ b ∧
        (∀ a' b' : List Char, t.data = a' ++ sepList ++ b' →
          a.length ≤ a'.length) ∧
        updateTrack tags prev =
          { prev with
            Raw := t
            Artist := (trimSpace a).asString
            Title := (trimSpace b).asString })) ∧
    (∀ t : String,
      tags.lookup ("StreamTitle") = some t →
      splitFirst sepList t.data = none →
      ((∀ a b : List Char, t.data ≠ a ++ sepList ++ b) ∧
        updateTrack tags prev =
          { prev with
            Raw := t
            Title := t
            Artist := "" })) ∧
    (∀ s : String,
      tags.lookup ("StreamTitle") = none →
      tags.lookup ("icy-name") = some s →
      updateTrack tags prev = { prev with Raw := s, Title := s }) := by
  refine ⟨?_, ?_, ?_⟩
  · intro t a b hl hs
    obtain ⟨heq, hmin⟩ := splitFirst_some sepList t.data a b hs
    exact ⟨heq, hmin, by simp only [updateTrack, hl, parseStreamTitle, hs]⟩
  · intro t hl hs
    exact ⟨splitFirst_none sepList (by decide) t.data hs,
      by simp only [updateTrack, hl, parseStreamTitle, hs]⟩
  · intro s hl1 hl2
    simp only [updateTrack, hl1, hl2]

/-- C9 witness: a `StreamTitle` containing two separators is split at the
first one; artist and title come out trimmed. -/
theorem C9_witness :
    ("AC - DC - Thunder" : String).data =
      ("AC" : String).data ++ sepList ++ ("DC - Thunder" : String).data ∧
    (∀ a' b' : List Char,
      ("AC - DC - Thunder" : String).data = a' ++ sepList ++ b' →
      ("AC" : String).data.length ≤ a'.length) ∧
    updateTrack [("StreamTitle", "AC - DC - Thunder")] ⟨"", "", ""⟩ =
      { (⟨"", "", ""⟩ : TrackInfo) with
        Raw := "AC - DC - Thunder"
        Artist := (trimSpace ("AC" : String).data).asString
        Title := (trimSpace ("DC - Thunder" : String).data).asString } :=
  (C9_amended [("StreamTitle", "AC - DC - Thunder")] ⟨"", "", ""⟩).1
    "AC - DC - Thunder" ("AC" : String).data ("DC - Thunder" : String).data
    (by decide) (by decide)

end Spectrum
